import Mathlib

/-!
Verification of the streaming core of `go-schwabapi`.

The Go sources are embedded shallowly:
* `pkg/stream` subscription ledger (`Manager`, `RecordRequest`,
  `GetSubscriptions`, `strToList`, `mergeFields`);
* `pkg/stream` reconnect loop with exponential backoff
  (`ReconnectManager`, `Client.Connect`);
* `pkg/stream` websocket wrapper (`Conn.Write`, `Conn.Close`,
  `Client.Close`);
* `pkg/stream` subscription-key formatters (`FormatEquityKey`,
  `FormatOptionKey`).

Go maps `map[string]V` are modelled as association lists with unique keys
(`lookupA` / `insertA` / `eraseA` implement exactly the partial-function
semantics of Go map indexing, assignment and `delete`).  Durations are in
nanoseconds (`time.Duration` is an integer nanosecond count; the values
involved stay far below 2^53, so Go's `math.Min` over `float64` is exact
and is modelled by `Nat.min`).
-/

set_option autoImplicit false

namespace Schwab

/-! ## Association lists: the Go `map[string]V` model -/

abbrev FieldList := List String

/-- Go `map[string][]string` (key -> fields). -/
abbrev KeyMap := List (String × FieldList)

/-- Go `map[string]map[string][]string` (service -> key -> fields). -/
abbrev SubsMap := List (String × KeyMap)

/-- Go map read `m[k]` (`none` when the key is absent). -/
def lookupA {α : Type} (l : List (String × α)) (k : String) : Option α :=
  match l with
  | [] => none
  | (k₁, v) :: t => if k₁ = k then some v else lookupA t k

/-- Go map write `m[k] = v`: replace in place if present, else append. -/
def insertA {α : Type} (l : List (String × α)) (k : String) (v : α) :
    List (String × α) :=
  match l with
  | [] => [(k, v)]
  | (k₁, v₁) :: t => if k₁ = k then (k, v) :: t else (k₁, v₁) :: insertA t k v

/-- Go `delete(m, k)`. -/
def eraseA {α : Type} (l : List (String × α)) (k : String) :
    List (String × α) :=
  l.filter (fun p => p.1 ≠ k)

theorem lookupA_insertA {α : Type} (l : List (String × α)) (k j : String)
    (v : α) :
    lookupA (insertA l k v) j = if k = j then some v else lookupA l j := by
  induction l with
  | nil => simp [insertA, lookupA]
  | cons p t ih =>
    obtain ⟨k₁, v₁⟩ := p
    by_cases h₁ : k₁ = k
    · subst h₁
      by_cases h₂ : k₁ = j <;> simp [insertA, lookupA, h₂]
    · by_cases h₂ : k₁ = j
      · subst h₂
        simp [insertA, lookupA, h₁, Ne.symm h₁]
      · simp [insertA, lookupA, h₁, h₂, ih]

theorem lookupA_eraseA {α : Type} (l : List (String × α)) (k j : String) :
    lookupA (eraseA l k) j = if k = j then none else lookupA l j := by
  induction l with
  | nil => simp [eraseA, lookupA]
  | cons p t ih =>
    obtain ⟨k₁, v₁⟩ := p
    by_cases h₁ : k₁ = k
    · subst h₁
      by_cases h₂ : k₁ = j
      · subst h₂
        simpa [eraseA, lookupA] using ih
      · simpa [eraseA, lookupA, h₂] using ih
    · by_cases h₂ : k₁ = j
      · subst h₂
        simp [eraseA, lookupA, h₁, Ne.symm h₁]
      · simpa [eraseA, lookupA, h₁, h₂] using ih

theorem lookupA_eq_some_mem {α : Type} (l : List (String × α)) (j : String)
    (v : α) (h : lookupA l j = some v) : (j, v) ∈ l := by
  induction l with
  | nil => simp [lookupA] at h
  | cons p t ih =>
    obtain ⟨k₁, v₁⟩ := p
    by_cases h₁ : k₁ = j
    · subst h₁
      simp [lookupA] at h
      simp [h]
    · simp [lookupA, h₁] at h
      exact List.mem_cons_of_mem _ (ih h)

theorem eq_nil_of_lookupA_eq_none {α : Type} (l : List (String × α))
    (h : ∀ j, lookupA l j = none) : l = [] := by
  cases l with
  | nil => rfl
  | cons p t =>
    obtain ⟨k₁, v₁⟩ := p
    have := h k₁
    simp [lookupA] at this

/-! ## Subscription request types (`pkg/types/requests.go`) -/

/-- Go `types.SubscriptionParams`. -/
structure SubscriptionParams where
  keys : String
  fields : String
  deriving DecidableEq, Repr

/-- Go `types.Subscription`. -/
structure Subscription where
  service : String
  command : String
  requestID : Int
  parameters : Option SubscriptionParams
  deriving DecidableEq, Repr

/-! ## Subscription ledger (`pkg/stream`, subscription manager file) -/

/-- The group-accumulating core of Go `strings.Split(s, ",")` for the
one-character separator used throughout the ledger: every comma ends the
current group. -/
def splitCommaChars : List Char → List (List Char)
  | [] => [[]]
  | c :: rest =>
    match splitCommaChars rest with
    | [] => [[]]
    | g :: gs => if c = ',' then [] :: g :: gs else (c :: g) :: gs

/-- Go `strToList`: `strings.Split(s, ",")`, with `""` mapped to the empty
list. -/
def strToList (s : String) : List String :=
  if s = "" then [] else (splitCommaChars s.data).map String.mk

/-- One pass of `mergeFields`'s seen-set loop: append each element of `fs`
that is not already present in the accumulator. -/
def addUnseen (acc : List String) (fs : List String) : List String :=
  fs.foldl (fun r f => if f ∈ r then r else r ++ [f]) acc

/-- Go `mergeFields`: existing fields first, then the fresh ones, each
added only on first sight. -/
def mergeFields (existing fresh : List String) : List String :=
  addUnseen (addUnseen [] existing) fresh

/-- The ledger state: Go `stream.Manager` (the mutex and logger carry no
observable state). -/
structure Manager where
  subscriptions : SubsMap
  deriving DecidableEq, Repr

/-- Go `NewManager`. -/
def newManager : Manager := { subscriptions := [] }

/-- One iteration of the `case "ADD"` loop of `RecordRequest`: set the
fields if the key is absent, else merge into the existing set. -/
def addStep (fields : List String) (acc : KeyMap) (key : String) : KeyMap :=
  match lookupA acc key with
  | none => insertA acc key fields
  | some ex => insertA acc key (mergeFields ex fields)

/-- The `case "ADD"` loop of `RecordRequest`. -/
def applyADD (sm : KeyMap) (keys fields : List String) : KeyMap :=
  keys.foldl (addStep fields) sm

/-- The `case "SUBS"` branch: a fresh map holding exactly this request. -/
def applySUBS (keys fields : List String) : KeyMap :=
  keys.foldl (fun acc key => insertA acc key fields) []

/-- One iteration of the `case "UNSUBS"` loop of `RecordRequest`: delete,
guarded by an existence check. -/
def unsubStep (acc : KeyMap) (key : String) : KeyMap :=
  match lookupA acc key with
  | some _ => eraseA acc key
  | none => acc

/-- The `case "UNSUBS"` loop of `RecordRequest`. -/
def applyUNSUBS (sm : KeyMap) (keys : List String) : KeyMap :=
  keys.foldl unsubStep sm

/-- The `case "VIEW"` loop: overwrite the fields of every tracked key. -/
def applyVIEW (sm : KeyMap) (fields : List String) : KeyMap :=
  sm.map (fun p => (p.1, fields))

/-- Go `Manager.RecordRequest`.  Returns the new state together with the
returned `error` value (the Go function returns `nil` on every path). -/
def recordRequest (m : Manager) (req : Subscription) :
    Manager × Option String :=
  match req.parameters with
  | none => (m, none)
  | some ps =>
    if req.service = "" then (m, none)
    else
      let keys := strToList ps.keys
      let fields := strToList ps.fields
      -- "Add service to subscriptions if not already there"
      let base :=
        if (lookupA m.subscriptions req.service).isSome then m.subscriptions
        else insertA m.subscriptions req.service []
      let svcMap := (lookupA base req.service).getD []
      let subs :=
        if req.command = "ADD" then
          insertA base req.service (applyADD svcMap keys fields)
        else if req.command = "SUBS" then
          insertA base req.service (applySUBS keys fields)
        else if req.command = "UNSUBS" then
          insertA base req.service (applyUNSUBS svcMap keys)
        else if req.command = "VIEW" then
          insertA base req.service (applyVIEW svcMap fields)
        else base
      ({ subscriptions := subs }, none)

/-- Go `Manager.GetSubscriptions`: a deep copy of the ledger.  On
immutable values the element-wise copy is the identity. -/
def getSubscriptions (m : Manager) : SubsMap :=
  m.subscriptions.map (fun s => (s.1, s.2.map (fun k => (k.1, k.2))))

/-- Go `Manager.Clear`. -/
def clear (_m : Manager) : Manager := { subscriptions := [] }

theorem getSubscriptions_eq (m : Manager) :
    getSubscriptions m = m.subscriptions := by
  simp [getSubscriptions]

/-! ## Lemmas about the SUBS branch -/

theorem lookupA_subsFold (keys : List String) (fields : List String)
    (sm : KeyMap) (j : String) :
    lookupA (keys.foldl (fun acc key => insertA acc key fields) sm) j =
      if j ∈ keys then some fields else lookupA sm j := by
  induction keys generalizing sm with
  | nil => simp
  | cons key rest ih =>
    rw [List.foldl_cons, ih]
    by_cases h₁ : j ∈ rest
    · simp [h₁]
    · by_cases h₂ : j = key
      · subst h₂
        simp [h₁, lookupA_insertA]
      · simp [h₁, h₂, lookupA_insertA, Ne.symm h₂]

theorem lookupA_applySUBS (keys fields : List String) (j : String) :
    lookupA (applySUBS keys fields) j =
      if j ∈ keys then some fields else none := by
  rw [applySUBS, lookupA_subsFold]
  simp [lookupA]

theorem recordRequest_lookup_SUBS (m : Manager) (s ks fs : String) (i : Int)
    (hs : s ≠ "") :
    lookupA ((recordRequest m ⟨s, "SUBS", i, some ⟨ks, fs⟩⟩).1).subscriptions s
      = some (applySUBS (strToList ks) (strToList fs)) := by
  simp only [recordRequest]
  rw [if_neg hs]
  simp only [if_neg (by decide : ¬("SUBS" : String) = "ADD"),
    if_pos (rfl : ("SUBS" : String) = "SUBS")]
  simp [lookupA_insertA]

/-- C4: after `RecordRequest(SUBS, service=S, keys=K, fields=F)` with a
non-empty key list and service name, the snapshot returned by
`GetSubscriptions` maps `S` to exactly the keys of `K`, each bound to `F`,
with no leftover prior keys of `S`, whatever the prior ledger state. -/
theorem subs_replace_law (m : Manager) (s ks fs : String) (i : Int)
    (hs : s ≠ "") (_hk : strToList ks ≠ []) :
    (lookupA (getSubscriptions
        ((recordRequest m ⟨s, "SUBS", i, some ⟨ks, fs⟩⟩).1)) s).isSome = true ∧
    ∀ k, lookupA ((lookupA (getSubscriptions
        ((recordRequest m ⟨s, "SUBS", i, some ⟨ks, fs⟩⟩).1)) s).getD []) k =
      if k ∈ strToList ks then some (strToList fs) else none := by
  rw [getSubscriptions_eq, recordRequest_lookup_SUBS m s ks fs i hs]
  refine ⟨rfl, fun k => ?_⟩
  simp [lookupA_applySUBS]

theorem subs_replace_law_witness :
    ("SVC" : String) ≠ "" ∧ strToList "A,B" ≠ [] ∧
    lookupA ((lookupA (getSubscriptions
        ((recordRequest ⟨[("SVC", [("OLD", ["9"])])]⟩
          ⟨"SVC", "SUBS", 1, some ⟨"A,B", "0,1"⟩⟩).1)) "SVC").getD [])
      "OLD" = none := by
  refine ⟨by decide, by decide, ?_⟩
  have h := (subs_replace_law ⟨[("SVC", [("OLD", ["9"])])]⟩ "SVC" "A,B" "0,1" 1
    (by decide) (by decide)).2 "OLD"
  simpa using h

/-- C5 (counterexample): a request with an empty key list is not a no-op:
recording `SUBS` for service `"S"` with empty keys on a fresh manager makes
`GetSubscriptions` report `"S"` (bound to an empty key map), which it did
not report before. -/
theorem empty_keys_not_noop :
    lookupA (getSubscriptions
        ((recordRequest newManager ⟨"S", "SUBS", 1, some ⟨"", ""⟩⟩).1)) "S"
      = some [] ∧
    lookupA (getSubscriptions newManager) "S" = none := by
  decide

/-- C5 (amended): a request with `nil` parameters or an empty service name
leaves the ledger unchanged and returns no error, for every command. -/
theorem recordRequest_noop_of_none_params_or_empty_service
    (m : Manager) (req : Subscription)
    (h : req.parameters = none ∨ req.service = "") :
    recordRequest m req = (m, none) := by
  match hp : req.parameters with
  | none => simp [recordRequest, hp]
  | some ps =>
    cases h with
    | inl h₁ => rw [hp] at h₁; cases h₁
    | inr h₂ => simp [recordRequest, hp, h₂]

theorem recordRequest_noop_of_none_params_or_empty_service_witness :
    ((⟨"", "ADD", 1, some ⟨"A", "0"⟩⟩ : Subscription).parameters = none ∨
      (⟨"", "ADD", 1, some ⟨"A", "0"⟩⟩ : Subscription).service = "") ∧
    recordRequest ⟨[("SVC", [("K", ["0"])])]⟩ ⟨"", "ADD", 1, some ⟨"A", "0"⟩⟩
      = (⟨[("SVC", [("K", ["0"])])]⟩, none) :=
  ⟨Or.inr rfl,
    recordRequest_noop_of_none_params_or_empty_service
      ⟨[("SVC", [("K", ["0"])])]⟩ ⟨"", "ADD", 1, some ⟨"A", "0"⟩⟩
      (Or.inr rfl)⟩

/-- C6 (counterexample): a request with an unrecognized command is not free
of mutation: on a fresh manager, command `"QOS"` for service `"S"` makes
`GetSubscriptions` report `"S"` (bound to an empty key map), which it did
not report before. -/
theorem unknown_command_not_noop :
    lookupA (getSubscriptions
        ((recordRequest newManager ⟨"S", "QOS", 1, some ⟨"AAPL", "0"⟩⟩).1)) "S"
      = some [] ∧
    lookupA (getSubscriptions newManager) "S" = none := by
  decide

/-- C6 (amended): a request whose command is none of ADD, SUBS, UNSUBS,
VIEW returns no error and performs no mutation beyond ensuring an (empty)
entry for the request's service exists; in particular, when the service is
already tracked the ledger is unchanged. -/
theorem recordRequest_unknown_command (m : Manager) (req : Subscription)
    (ps : SubscriptionParams) (hp : req.parameters = some ps)
    (hs : req.service ≠ "")
    (hc : req.command ≠ "ADD" ∧ req.command ≠ "SUBS" ∧
      req.command ≠ "UNSUBS" ∧ req.command ≠ "VIEW")
    (ht : (lookupA m.subscriptions req.service).isSome = true) :
    recordRequest m req = (m, none) := by
  obtain ⟨subs⟩ := m
  simp [recordRequest, hp, hs, hc.1, hc.2.1, hc.2.2.1, hc.2.2.2, ht]

theorem recordRequest_unknown_command_witness :
    recordRequest ⟨[("S", [("K", ["0"])])]⟩ ⟨"S", "QOS", 1, some ⟨"A", "1"⟩⟩
      = (⟨[("S", [("K", ["0"])])]⟩, none) :=
  recordRequest_unknown_command ⟨[("S", [("K", ["0"])])]⟩
    ⟨"S", "QOS", 1, some ⟨"A", "1"⟩⟩ ⟨"A", "1"⟩ rfl (by decide)
    ⟨by decide, by decide, by decide, by decide⟩ (by decide)

/-! ## Lemmas about the ADD branch and field merging -/

/-- The spec's "duplicate-free union in first-seen order" of a field
list. -/
def dedupFirstSeen (l : List String) : List String :=
  l.foldl (fun acc f => if f ∈ acc then acc else acc ++ [f]) []

theorem addUnseen_append (acc : List String) (l₁ l₂ : List String) :
    addUnseen acc (l₁ ++ l₂) = addUnseen (addUnseen acc l₁) l₂ :=
  List.foldl_append ..

theorem mergeFields_eq_dedupFirstSeen (a b : List String) :
    mergeFields a b = dedupFirstSeen (a ++ b) := by
  rw [mergeFields, dedupFirstSeen, List.foldl_append]
  rfl

theorem mem_addUnseen (acc fs : List String) (x : String) :
    x ∈ addUnseen acc fs ↔ x ∈ acc ∨ x ∈ fs := by
  induction fs generalizing acc with
  | nil => simp [addUnseen]
  | cons f t ih =>
    show x ∈ addUnseen (if f ∈ acc then acc else acc ++ [f]) t ↔ _
    rw [ih]
    by_cases h : f ∈ acc
    · simp [h]
      constructor
      · rintro (hx | hx)
        · exact Or.inl hx
        · exact Or.inr (Or.inr hx)
      · rintro (hx | hx | hx)
        · exact Or.inl hx
        · exact Or.inl (hx ▸ h)
        · exact Or.inr hx
    · simp [h, List.mem_append, or_assoc]

theorem nodup_addUnseen (acc fs : List String) (h : acc.Nodup) :
    (addUnseen acc fs).Nodup := by
  induction fs generalizing acc with
  | nil => exact h
  | cons f t ih =>
    show (addUnseen (if f ∈ acc then acc else acc ++ [f]) t).Nodup
    by_cases hf : f ∈ acc
    · rw [if_pos hf]; exact ih acc h
    · rw [if_neg hf]
      exact ih _ (by simp [List.nodup_append, h, hf])

theorem addUnseen_of_nodup (acc l : List String)
    (h : (acc ++ l).Nodup) : addUnseen acc l = acc ++ l := by
  induction l generalizing acc with
  | nil => simp [addUnseen]
  | cons f t ih =>
    have hf : f ∉ acc := by
      have h₁ := List.nodup_middle.mp h
      rw [List.nodup_cons] at h₁
      intro hmem
      exact h₁.1 (by simp [hmem])
    show addUnseen (if f ∈ acc then acc else acc ++ [f]) t = _
    rw [if_neg hf]
    have h₂ : ((acc ++ [f]) ++ t).Nodup := by
      simpa using h
    rw [ih (acc ++ [f]) h₂]
    simp

theorem canon_of_nodup (l : List String) (h : l.Nodup) :
    addUnseen [] l = l := by
  simpa using addUnseen_of_nodup [] l (by simpa using h)

theorem addUnseen_eq_self (acc fs : List String)
    (h : ∀ x ∈ fs, x ∈ acc) : addUnseen acc fs = acc := by
  induction fs with
  | nil => rfl
  | cons f t ih =>
    show addUnseen (if f ∈ acc then acc else acc ++ [f]) t = acc
    rw [if_pos (h f (by simp))]
    exact ih fun x hx => h x (by simp [hx])

/-- Merging a list whose canonical form agrees with `f₁` with `f₁` again
lands exactly on the canonical form of `f₁`. -/
theorem mergeFields_self_canon (f₁ v : List String)
    (hv : addUnseen [] v = addUnseen [] f₁) :
    mergeFields v f₁ = addUnseen [] f₁ := by
  rw [mergeFields, hv]
  exact addUnseen_eq_self _ _ fun x hx => (mem_addUnseen [] f₁ x).mpr (Or.inr hx)

theorem canon_canon (l : List String) :
    addUnseen [] (addUnseen [] l) = addUnseen [] l :=
  canon_of_nodup _ (nodup_addUnseen [] l List.nodup_nil)

/-- Merging any list with the canonical form of `f₁` yields the same
result as merging `f₁` itself. -/
theorem mergeFields_congr_canon (f₁ f₂ v : List String)
    (hv : addUnseen [] v = addUnseen [] f₁) :
    mergeFields v f₂ = mergeFields f₁ f₂ := by
  rw [mergeFields, mergeFields, hv]

theorem nodup_mergeFields (a b : List String) : (mergeFields a b).Nodup :=
  nodup_addUnseen _ _ (nodup_addUnseen [] a List.nodup_nil)

/-- Re-merging the second operand into a finished merge changes nothing. -/
theorem mergeFields_absorb (f₁ f₂ : List String) :
    mergeFields (mergeFields f₁ f₂) f₂ = mergeFields f₁ f₂ := by
  rw [mergeFields, canon_of_nodup _ (nodup_mergeFields f₁ f₂)]
  exact addUnseen_eq_self _ _ fun x hx =>
    (mem_addUnseen _ f₂ x).mpr (Or.inr hx)

theorem lookupA_addStep (fields : List String) (acc : KeyMap)
    (key j : String) :
    lookupA (addStep fields acc key) j =
      if key = j then
        some (match lookupA acc key with
          | none => fields
          | some ex => mergeFields ex fields)
      else lookupA acc j := by
  cases h : lookupA acc key <;> simp [addStep, h, lookupA_insertA]

theorem applyADD_cons (sm : KeyMap) (key : String) (rest fields : List String) :
    applyADD sm (key :: rest) fields =
      applyADD (addStep fields sm key) rest fields := rfl

/-- Preservation through an ADD pass: a key already holding a value whose
canonical form agrees with `f₁` keeps that property. -/
theorem applyADD_pres_canon (f₁ : List String) (keys : List String)
    (sm : KeyMap) (k : String) (v : List String)
    (hl : lookupA sm k = some v)
    (hq : addUnseen [] v = addUnseen [] f₁) :
    ∃ w, lookupA (applyADD sm keys f₁) k = some w ∧
      addUnseen [] w = addUnseen [] f₁ := by
  induction keys generalizing sm v with
  | nil => exact ⟨v, hl, hq⟩
  | cons key rest ih =>
    rw [applyADD_cons]
    by_cases hk : key = k
    · subst hk
      refine ih (addStep f₁ sm key) (mergeFields v f₁) ?_ ?_
      · rw [lookupA_addStep, if_pos rfl, hl]
      · rw [mergeFields_self_canon f₁ v hq, canon_canon]
    · refine ih (addStep f₁ sm key) v ?_ hq
      rw [lookupA_addStep, if_neg hk, hl]

/-- Effect of an ADD pass on its own keys: every key of the pass ends up
holding a value whose canonical form agrees with `f₁`, provided it started
absent or already agreeing. -/
theorem applyADD_sets_canon (f₁ : List String) (keys : List String)
    (sm : KeyMap) (k : String) (hk : k ∈ keys)
    (h0 : lookupA sm k = none ∨
      ∃ v, lookupA sm k = some v ∧ addUnseen [] v = addUnseen [] f₁) :
    ∃ w, lookupA (applyADD sm keys f₁) k = some w ∧
      addUnseen [] w = addUnseen [] f₁ := by
  induction keys generalizing sm with
  | nil => cases hk
  | cons key rest ih =>
    rw [applyADD_cons]
    by_cases hke : key = k
    · subst hke
      cases h0 with
      | inl h =>
        exact applyADD_pres_canon f₁ rest _ key f₁
          (by rw [lookupA_addStep, if_pos rfl, h]) rfl
      | inr h =>
        obtain ⟨v, hv, hq⟩ := h
        exact applyADD_pres_canon f₁ rest _ key (mergeFields v f₁)
          (by rw [lookupA_addStep, if_pos rfl, hv])
          (by rw [mergeFields_self_canon f₁ v hq, canon_canon])
    · have hk₂ : k ∈ rest := by
        cases hk with
        | head => exact absurd rfl hke
        | tail _ h => exact h
      refine ih _ hk₂ ?_
      rw [lookupA_addStep, if_neg hke]
      exact h0

/-- Preservation through the second ADD pass: a key already holding the
finished merge keeps it. -/
theorem applyADD_pres_merged (f₁ f₂ : List String) (keys : List String)
    (sm : KeyMap) (k : String)
    (hl : lookupA sm k = some (mergeFields f₁ f₂)) :
    lookupA (applyADD sm keys f₂) k = some (mergeFields f₁ f₂) := by
  induction keys generalizing sm with
  | nil => exact hl
  | cons key rest ih =>
    rw [applyADD_cons]
    by_cases hk : key = k
    · subst hk
      refine ih _ ?_
      rw [lookupA_addStep, if_pos rfl, hl]
      exact congrArg some (mergeFields_absorb f₁ f₂)
    · refine ih _ ?_
      rw [lookupA_addStep, if_neg hk, hl]

/-- Effect of the second ADD pass on its own keys: a key that holds a
value canonically equal to `f₁` ends up holding `mergeFields f₁ f₂`. -/
theorem applyADD_merges (f₁ f₂ : List String) (keys : List String)
    (sm : KeyMap) (k : String) (hk : k ∈ keys)
    (h0 : ∃ v, lookupA sm k = some v ∧ addUnseen [] v = addUnseen [] f₁) :
    lookupA (applyADD sm keys f₂) k = some (mergeFields f₁ f₂) := by
  induction keys generalizing sm with
  | nil => cases hk
  | cons key rest ih =>
    rw [applyADD_cons]
    obtain ⟨v, hv, hq⟩ := h0
    by_cases hke : key = k
    · subst hke
      refine applyADD_pres_merged f₁ f₂ rest _ key ?_
      rw [lookupA_addStep, if_pos rfl, hv]
      exact congrArg some (mergeFields_congr_canon f₁ f₂ v hq)
    · have hk₂ : k ∈ rest := by
        cases hk with
        | head => exact absurd rfl hke
        | tail _ h => exact h
      refine ih _ hk₂ ⟨v, ?_, hq⟩
      rw [lookupA_addStep, if_neg hke, hv]

theorem recordRequest_lookup_ADD (m : Manager) (s ks fs : String) (i : Int)
    (hs : s ≠ "") :
    lookupA ((recordRequest m ⟨s, "ADD", i, some ⟨ks, fs⟩⟩).1).subscriptions s
      = some (applyADD ((lookupA m.subscriptions s).getD [])
          (strToList ks) (strToList fs)) := by
  simp only [recordRequest]
  rw [if_neg hs]
  simp only [if_pos (rfl : ("ADD" : String) = "ADD")]
  cases h : lookupA m.subscriptions s <;> simp [h, lookupA_insertA]

/-- C3: recording `ADD` twice for the same service and keys — first with
fields `F1`, then with fields `F2` — leaves every key of the key list
bound to the duplicate-free union of `F1` and `F2` in first-seen order
(starting from any state in which those keys are untracked). -/
theorem add_merge_law (m : Manager) (s ks f1s f2s : String) (i₁ i₂ : Int)
    (hs : s ≠ "")
    (habsent : ∀ k ∈ strToList ks,
      lookupA ((lookupA m.subscriptions s).getD []) k = none) :
    ∀ k ∈ strToList ks,
      lookupA ((lookupA (getSubscriptions
        ((recordRequest ((recordRequest m ⟨s, "ADD", i₁, some ⟨ks, f1s⟩⟩).1)
          ⟨s, "ADD", i₂, some ⟨ks, f2s⟩⟩).1)) s).getD []) k
      = some (dedupFirstSeen (strToList f1s ++ strToList f2s)) := by
  intro k hk
  rw [getSubscriptions_eq, recordRequest_lookup_ADD _ s ks f2s i₂ hs,
    recordRequest_lookup_ADD m s ks f1s i₁ hs]
  rw [← mergeFields_eq_dedupFirstSeen]
  exact applyADD_merges (strToList f1s) (strToList f2s) (strToList ks) _ k hk
    (applyADD_sets_canon (strToList f1s) (strToList ks) _ k hk
      (Or.inl (habsent k hk)))

theorem add_merge_law_witness :
    ("LEVELONE_EQUITIES" : String) ≠ "" ∧
    (∀ k ∈ strToList "AAPL,MSFT",
      lookupA ((lookupA (newManager).subscriptions "LEVELONE_EQUITIES").getD
        []) k = none) ∧
    lookupA ((lookupA (getSubscriptions
        ((recordRequest ((recordRequest newManager
            ⟨"LEVELONE_EQUITIES", "ADD", 1, some ⟨"AAPL,MSFT", "0,1,2"⟩⟩).1)
          ⟨"LEVELONE_EQUITIES", "ADD", 2,
            some ⟨"AAPL,MSFT", "1,3"⟩⟩).1)) "LEVELONE_EQUITIES").getD [])
      "AAPL" = some ["0", "1", "2", "3"] := by
  refine ⟨by decide, by decide, ?_⟩
  have h := add_merge_law newManager "LEVELONE_EQUITIES" "AAPL,MSFT"
    "0,1,2" "1,3" 1 2 (by decide) (by decide) "AAPL" (by decide)
  rw [h]
  decide

/-! ## Lemmas about the UNSUBS branch -/

theorem lookupA_unsubStep (acc : KeyMap) (key j : String) :
    lookupA (unsubStep acc key) j =
      if key = j then none else lookupA acc j := by
  cases h : lookupA acc key with
  | some v => simp [unsubStep, h, lookupA_eraseA]
  | none =>
    by_cases hj : key = j
    · subst hj
      simp [unsubStep, h]
    · simp [unsubStep, h, hj]

theorem lookupA_applyUNSUBS (keys : List String) (sm : KeyMap) (j : String) :
    lookupA (applyUNSUBS sm keys) j =
      if j ∈ keys then none else lookupA sm j := by
  induction keys generalizing sm with
  | nil => simp [applyUNSUBS]
  | cons key rest ih =>
    show lookupA (applyUNSUBS (unsubStep sm key) rest) j = _
    rw [ih]
    by_cases h₁ : j ∈ rest
    · simp [h₁]
    · by_cases h₂ : j = key
      · subst h₂
        simp [h₁, lookupA_unsubStep]
      · simp [h₁, h₂, lookupA_unsubStep, Ne.symm h₂]

theorem recordRequest_lookup_UNSUBS (m : Manager) (s ks fs : String)
    (i : Int) (hs : s ≠ "") :
    lookupA ((recordRequest m ⟨s, "UNSUBS", i, some ⟨ks, fs⟩⟩).1).subscriptions
      s = some (applyUNSUBS ((lookupA m.subscriptions s).getD [])
        (strToList ks)) := by
  simp only [recordRequest]
  rw [if_neg hs]
  simp only [if_neg (by decide : ¬("UNSUBS" : String) = "ADD"),
    if_neg (by decide : ¬("UNSUBS" : String) = "SUBS"),
    if_pos (rfl : ("UNSUBS" : String) = "UNSUBS")]
  cases h : lookupA m.subscriptions s <;> simp [h, lookupA_insertA]

/-- C10: an `UNSUBS` request never removes the service entry itself: when
its key list covers every tracked key of the service, the snapshot still
contains the service, bound to an empty key map. -/
theorem unsubs_keeps_service_entry (m : Manager) (s ks fs : String)
    (i : Int) (hs : s ≠ "")
    (hcover : ∀ p ∈ (lookupA m.subscriptions s).getD [],
      p.1 ∈ strToList ks) :
    lookupA (getSubscriptions
        ((recordRequest m ⟨s, "UNSUBS", i, some ⟨ks, fs⟩⟩).1)) s
      = some [] := by
  rw [getSubscriptions_eq, recordRequest_lookup_UNSUBS m s ks fs i hs]
  refine congrArg some (eq_nil_of_lookupA_eq_none _ fun j => ?_)
  rw [lookupA_applyUNSUBS]
  by_cases hj : j ∈ strToList ks
  · simp [hj]
  · rw [if_neg hj]
    cases h : lookupA ((lookupA m.subscriptions s).getD []) j with
    | none => rfl
    | some v => exact absurd (hcover (j, v) (lookupA_eq_some_mem _ j v h)) hj

theorem unsubs_keeps_service_entry_witness :
    ("S" : String) ≠ "" ∧
    (∀ p ∈ (lookupA (⟨[("S", [("A", ["0"]), ("B", ["1"])])]⟩ :
        Manager).subscriptions "S").getD [], p.1 ∈ strToList "A,B") ∧
    lookupA (getSubscriptions
        ((recordRequest ⟨[("S", [("A", ["0"]), ("B", ["1"])])]⟩
          ⟨"S", "UNSUBS", 1, some ⟨"A,B", ""⟩⟩).1)) "S" = some [] :=
  ⟨by decide, by decide,
    unsubs_keeps_service_entry ⟨[("S", [("A", ["0"]), ("B", ["1"])])]⟩
      "S" "A,B" "" 1 (by decide) (by decide)⟩

/-! ## Reconnect controller (`pkg/stream`, reconnect manager file and
`Client.Connect`)

Durations are nanosecond counts, as in Go `time.Duration`.  Both
`ReconnectManager.ReconnectWithBackoff` / `WaitForBackoff` and
`Client.Connect` implement the same retry loop: on a failure whose uptime
is below the minimum-uptime threshold, return an error; otherwise wait for
the current backoff and double it, clamped to the ceiling via
`math.Min` over `float64` (exact here: all values stay below 2^53). -/

/-- The duration fields of Go `stream.ReconnectManager` (equally, the
backoff fields of `stream.Client`). -/
structure ReconnectState where
  backoffNs : Nat
  maxBackoffNs : Nat
  minUptimeNs : Nat
  deriving DecidableEq, Repr

/-- Go `NewReconnectManager` / `NewClient`: 2s initial backoff, 120s
ceiling, 90s minimum uptime. -/
def newReconnectManager : ReconnectState :=
  { backoffNs := 2000000000
    maxBackoffNs := 120000000000
    minUptimeNs := 90000000000 }

/-- Go `ReconnectManager.ShouldReconnect` (the logging carries no state). -/
def shouldReconnect (r : ReconnectState) (uptimeNs : Nat) : Bool :=
  if uptimeNs < r.minUptimeNs then false else true

/-- The doubling-with-clamp of `WaitForBackoff` / `Client.Connect`:
`time.Duration(math.Min(float64(b*2), float64(maxBackoff)))`. -/
def nextBackoffNs (b maxB : Nat) : Nat := min (b * 2) maxB

/-- Result of one call of the supplied connect function. -/
inductive AttemptOutcome where
  | success
  | failure (uptimeNs : Nat)
  deriving DecidableEq, Repr

/-- How a (finite prefix of a) run of the retry loop ended. -/
inductive RunOutcome where
  | connected
  | fastFailError
  | outcomesExhausted
  deriving DecidableEq, Repr

/-- Go `ReconnectManager.ReconnectWithBackoff` (equally, the retry loop of
`Client.Connect`), driven by the list of outcomes of the successive
connection attempts.  Returns how the loop ended, the list of backoff
waits it performed (in nanoseconds, in order), and the final state. -/
def reconnectRun (r : ReconnectState) :
    List AttemptOutcome → RunOutcome × List Nat × ReconnectState
  | [] => (.outcomesExhausted, [], r)
  | .success :: _ => (.connected, [], { r with backoffNs := 2000000000 })
  | .failure u :: rest =>
    if shouldReconnect r u then
      -- WaitForBackoff: wait `backoffNs`, then double (clamped)
      let res := reconnectRun
        { r with backoffNs := nextBackoffNs r.backoffNs r.maxBackoffNs } rest
      (res.1, r.backoffNs :: res.2.1, res.2.2)
    else (.fastFailError, [], r)

theorem reconnectRun_failure_backoff (n : Nat) (b maxB mu u : Nat)
    (hu : mu ≤ u) :
    ((reconnectRun ⟨b, maxB, mu⟩
        (List.replicate n (.failure u))).2.2).backoffNs
      = (fun x => min (x * 2) maxB)^[n] b := by
  induction n generalizing b with
  | zero => rfl
  | succ n ih =>
    rw [List.replicate_succ]
    have hsr : shouldReconnect ⟨b, maxB, mu⟩ u = true := by
      simp [shouldReconnect, Nat.not_lt.mpr hu]
    rw [reconnectRun, if_pos hsr]
    rw [Function.iterate_succ_apply]
    exact ih (nextBackoffNs b maxB)

theorem iterate_min_double (n : Nat) :
    (fun x => min (x * 2) 120000000000)^[n] 2000000000
      = min (2 * 2 ^ n * 1000000000) 120000000000 := by
  induction n with
  | zero => decide
  | succ n ih =>
    rw [Function.iterate_succ_apply', ih,
      show 2 * 2 ^ (n + 1) * 1000000000
        = 2 * 2 ^ n * 1000000000 * 2 by ring]
    generalize 2 * 2 ^ n * 1000000000 = a
    omega

/-- C7: starting from the defaults (2s initial, 120s ceiling), each
above-threshold failure doubles the pending backoff clamped to the
ceiling, so after `n` failures it equals `min(2·2^n, 120)` seconds and
never exceeds 120 seconds; after 7 failures it is exactly 120 seconds. -/
theorem backoff_doubles_clamped (n : Nat) (u : Nat)
    (hu : 90000000000 ≤ u) :
    ((reconnectRun newReconnectManager
        (List.replicate n (.failure u))).2.2).backoffNs
      = min (2 * 2 ^ n * 1000000000) 120000000000 ∧
    ((reconnectRun newReconnectManager
        (List.replicate n (.failure u))).2.2).backoffNs ≤ 120000000000 ∧
    ((reconnectRun newReconnectManager
        (List.replicate 7 (.failure u))).2.2).backoffNs = 120000000000 := by
  have h : ∀ k, ((reconnectRun newReconnectManager
      (List.replicate k (.failure u))).2.2).backoffNs
        = min (2 * 2 ^ k * 1000000000) 120000000000 := fun k => by
    rw [show newReconnectManager
        = ⟨2000000000, 120000000000, 90000000000⟩ from rfl,
      reconnectRun_failure_backoff k _ _ _ u hu, iterate_min_double]
  refine ⟨h n, ?_, ?_⟩
  · rw [h n]; exact Nat.min_le_right ..
  · rw [h 7]; decide

theorem backoff_doubles_clamped_witness :
    (90000000000 ≤ 100000000000) ∧
    ((reconnectRun newReconnectManager
        (List.replicate 7 (.failure 100000000000))).2.2).backoffNs
      = 120000000000 :=
  ⟨by decide,
    (backoff_doubles_clamped 7 100000000000 (by decide)).2.2⟩

/-- C8: a connection attempt failing with uptime below the minimum-uptime
threshold makes the retry loop return an error at once: no backoff wait is
performed and the backoff state is untouched. -/
theorem fast_failure_short_circuit (r : ReconnectState) (u : Nat)
    (rest : List AttemptOutcome) (hu : u < r.minUptimeNs) :
    reconnectRun r (.failure u :: rest) = (.fastFailError, [], r) := by
  rw [reconnectRun, if_neg (by simp [shouldReconnect, hu])]

theorem fast_failure_short_circuit_witness :
    (10000000000 < newReconnectManager.minUptimeNs) ∧
    reconnectRun newReconnectManager [.failure 10000000000]
      = (.fastFailError, [], newReconnectManager) :=
  ⟨by decide,
    fast_failure_short_circuit newReconnectManager 10000000000 [] (by decide)⟩

/-! ## WebSocket connection wrapper (`pkg/stream/websocket.go`,
`pkg/stream/client.go`)

The shutdown signal is the channel `closeChan`; the Go builtin
`close(ch)` panics when the channel is already closed. -/

/-- Outcome of running a piece of Go code that may panic. -/
inductive GoResult (α : Type) where
  | ok (val : α)
  | panicked (msg : String)
  deriving DecidableEq, Repr

/-- The shutdown-relevant state of Go `stream.Conn`: whether `closeChan`
has been closed. -/
structure ConnState where
  closeChanClosed : Bool
  deriving DecidableEq, Repr

/-- Go `NewConn` / `NewClient`: `closeChan` is open. -/
def newConn : ConnState := { closeChanClosed := false }

/-- Go `Conn.Close`: unconditionally `close(c.closeChan)`, then a
best-effort close of the underlying transport (stateless here).  The Go
builtin panics on a second close of the same channel. -/
def connClose (c : ConnState) : GoResult ConnState :=
  if c.closeChanClosed then .panicked "close of closed channel"
  else .ok { closeChanClosed := true }

/-- Go `Client.Stop`: sets the stop/active flags and calls
`c.conn.Close()`, discarding its error (but not a panic). -/
def clientStop (c : ConnState) : GoResult ConnState := connClose c

/-- Go `Client.Close`: `c.Stop()` followed by `return c.conn.Close()` —
the connection is closed a second time. -/
def clientClose (c : ConnState) : GoResult ConnState :=
  match clientStop c with
  | .panicked msg => .panicked msg
  | .ok c₁ => connClose c₁

/-- C1 (failing evaluation): `Conn.Close` is not idempotent.  A first call
fires the shutdown signal, but a second call reaches `close(c.closeChan)`
again and panics; `Client.Close` even panics on its very first call,
because `Stop()` already closed the connection it then closes again. -/
theorem close_twice_panics :
    connClose newConn = .ok { closeChanClosed := true } ∧
    connClose { closeChanClosed := true }
      = .panicked "close of closed channel" ∧
    clientClose newConn = .panicked "close of closed channel" := by
  decide

/-! The outbound path of `Conn`.  `Conn.Write` is a two-branch `select`:
sending on `writeChan` and receiving from `closeChan`.  Per the Go
specification, when several branches can proceed one of them is chosen
pseudo-randomly; the choice is the explicit `SelectChoice` argument here.
A buffered send can proceed when the buffer has space (or, panicking, when
the channel is closed — `writeLoop` closes `writeChan` on exit); a receive
from a closed channel can always proceed. -/

/-- The outbound-path state of Go `stream.Conn`: the shutdown flag, whether
`writeLoop` has closed `writeChan`, the buffered frames, and the buffer
capacity (100 in `NewConn`). -/
structure WriteConnState where
  closeChanClosed : Bool
  writeChanClosed : Bool
  queue : List String
  cap : Nat
  deriving DecidableEq, Repr

/-- Which ready branch the Go runtime picks when several can proceed. -/
inductive SelectChoice where
  | sendBranch
  | recvCloseBranch
  deriving DecidableEq, Repr

/-- Observable outcome of one `Conn.Write` call. -/
inductive WriteOutcome where
  | enqueued
  | errClosedPipe
  | panicked
  | blocked
  deriving DecidableEq, Repr

/-- Go `Conn.Write`:
`select { case c.writeChan <- data: return nil;
case <-c.closeChan: return io.ErrClosedPipe }`. -/
def connWrite (c : WriteConnState) (data : String) (choice : SelectChoice) :
    WriteOutcome × WriteConnState :=
  let sendReady := c.writeChanClosed || decide (c.queue.length < c.cap)
  let recvReady := c.closeChanClosed
  let doSend : WriteOutcome × WriteConnState :=
    if c.writeChanClosed then (.panicked, c)
    else (.enqueued, { c with queue := c.queue ++ [data] })
  if sendReady && recvReady then
    match choice with
    | .sendBranch => doSend
    | .recvCloseBranch => (.errClosedPipe, c)
  else if sendReady then doSend
  else if recvReady then (.errClosedPipe, c)
  else (.blocked, c)

/-- C2 (counterexample): with shutdown fired, the write loop not yet
exited and room in the outbound queue, both select branches are ready, and
the runtime may pick the send: the frame IS enqueued and `Write` returns
`nil`, not the "closed" error. -/
theorem write_after_close_may_enqueue :
    (WriteConnState.mk true false [] 100).closeChanClosed = true ∧
    connWrite (WriteConnState.mk true false [] 100) "frame" .sendBranch
      = (.enqueued, WriteConnState.mk true false ["frame"] 100) := by
  decide

/-- C2 (amended): after the shutdown signal has fired (and while the write
loop has not yet closed the outbound channel), `Write` never blocks: it
returns at once, either with the closed-pipe error and the queue
untouched, or — only when the queue still has space — with the frame
enqueued, depending on the select choice. -/
theorem write_after_close_never_blocks (c : WriteConnState) (data : String)
    (choice : SelectChoice) (hcc : c.closeChanClosed = true)
    (hwc : c.writeChanClosed = false) :
    ((connWrite c data choice).1 = .errClosedPipe ∧
      (connWrite c data choice).2 = c) ∨
    ((connWrite c data choice).1 = .enqueued ∧
      c.queue.length < c.cap ∧
      (connWrite c data choice).2 = { c with queue := c.queue ++ [data] }) := by
  obtain ⟨cc, wc, q, cp⟩ := c
  simp only at hcc hwc
  subst hcc hwc
  by_cases hq : q.length < cp <;> cases choice <;>
    simp [connWrite, hq]

theorem write_after_close_never_blocks_witness :
    (WriteConnState.mk true false ["a"] 1).closeChanClosed = true ∧
    (((connWrite (WriteConnState.mk true false ["a"] 1) "b"
          .sendBranch).1 = .errClosedPipe ∧
      (connWrite (WriteConnState.mk true false ["a"] 1) "b"
          .sendBranch).2 = WriteConnState.mk true false ["a"] 1) ∨
    ((connWrite (WriteConnState.mk true false ["a"] 1) "b"
          .sendBranch).1 = .enqueued ∧
      (["a"] : List String).length < 1 ∧
      (connWrite (WriteConnState.mk true false ["a"] 1) "b"
          .sendBranch).2
        = { WriteConnState.mk true false ["a"] 1 with
            queue := ["a"] ++ ["b"] })) :=
  ⟨rfl, write_after_close_never_blocks
    (WriteConnState.mk true false ["a"] 1) "b" .sendBranch rfl rfl⟩

/-! ## Subscription-key formatters (`pkg/stream`, key formatter file) -/

/-- Go `fmt.Sprintf` with the minus flag and a width: left-justify the
string, padding on the right with spaces up to the width. -/
def padSpacesRight (w : Nat) (s : String) : String :=
  s ++ String.mk (List.replicate (w - s.length) ' ')

/-- Go `FormatEquityKey`: the symbol padded to 6 characters. -/
def FormatEquityKey (symbol : String) : String :=
  padSpacesRight 6 symbol

/-- Go's `int(x)` conversion applied to an exact rational: truncation
toward zero.  The one strike used below, `95.00 * 1000`, is exact in
`float64`, so the rational model agrees with the Go computation there. -/
def goTruncToInt (q : ℚ) : Int := Int.tdiv q.num q.den

/-- Go `fmt.Sprintf` with the zero flag and a width, on an integer:
zero-pad to the width (the sign, if any, precedes the zeros). -/
def zeroPadInt (w : Nat) (n : Int) : String :=
  if n < 0 then
    let s := toString (-n).toNat
    "-" ++ String.mk (List.replicate (w - 1 - s.length) '0') ++ s
  else
    let s := toString n.toNat
    String.mk (List.replicate (w - s.length) '0') ++ s

/-- Go `FormatOptionKey`: 6-char padded symbol, expiry, call/put
character, and the strike scaled by 1000 zero-padded to 8 digits. -/
def FormatOptionKey (symbol expiry callPut : String) (strike : ℚ) :
    String :=
  padSpacesRight 6 symbol ++ expiry ++ callPut
    ++ zeroPadInt 8 (goTruncToInt (strike * 1000))

/-- Go `FormatFutureKey`. -/
def FormatFutureKey (symbol monthCode yearCode : String) : String :=
  symbol ++ monthCode ++ yearCode

/-- Go `FormatForexKey`. -/
def FormatForexKey (base quote : String) : String :=
  base ++ "/" ++ quote

/-- C9: the equity-key formatter maps `"AAPL"` to `"AAPL  "` (exactly six
characters), and the option-key formatter maps
`("AAPL", "240809", "C", 95.00)` to `"AAPL  240809C00095000"`. -/
theorem format_key_scenarioB :
    FormatEquityKey "AAPL" = "AAPL  " ∧
    (FormatEquityKey "AAPL").length = 6 ∧
    FormatOptionKey "AAPL" "240809" "C" 95 = "AAPL  240809C00095000" := by
  refine ⟨by decide, by decide, ?_⟩
  have h : (95 : ℚ) * 1000 = (95000 : ℚ) := by norm_num
  rw [FormatOptionKey, h]
  decide

end Schwab

